import Mathlib

/-!
Verification of the wyresup protocol core against its specification.

The development shallowly embeds the TypeScript protocol core:
  * `BarqProtocol.ts` (framed datagram protocol: header codec, payload
    XOR cipher, trial-decryption packet processing),
  * the Miftah puncturable-key module (`fataha`/`tashfir`/`thaqb`/`fakk`),
  * the Nabd pulse/gap tracker (`onReceive`),
  * the Sayl flow controller (`canSend`/`onSend`/`onAck`/`onLoss`),
  * the ZBAT dual-layer envelope (`serializeTabaq`/`extractZahir`).

Conventions of the embedding:
  * byte strings are `List Nat` with entries below 256 where it matters;
    `DataView` writes perform the same `% 2 ^ w` truncation the JS
    `setUint8/16/32` conversions perform;
  * JavaScript `Map`s are association lists (`List (String × α)`), which
    preserves the insertion-iteration order of `Map`;
  * JavaScript `Set`s of numbers are `Finset ℕ`;
  * JavaScript floating point state (congestion windows, RTT estimates)
    is modelled by `ℚ`; the operations the claims quantify over
    (`max`, `Math.floor`, halving, comparison) are exact in both;
  * `Date.now()` is an explicit `now : ℕ` argument;
  * `TextEncoder`/`TextDecoder` and base64 transport are modelled by the
    identity on the byte/scalar-value level.
-/

namespace Wyresup

/-! ## Byte-level helpers (DataView reads and writes, big-endian) -/

/-- Big-endian 4-byte encoding, as `DataView.setUint32(_, n, false)`:
the value is truncated mod 2^32 by the byte extraction itself. -/
def be32enc (n : Nat) : List Nat :=
  [n / 2 ^ 24 % 256, n / 2 ^ 16 % 256, n / 2 ^ 8 % 256, n % 256]

/-- Big-endian 8-byte encoding, as `DataView.setBigUint64(_, n, false)`. -/
def be64enc (n : Nat) : List Nat :=
  [n / 2 ^ 56 % 256, n / 2 ^ 48 % 256, n / 2 ^ 40 % 256, n / 2 ^ 32 % 256,
   n / 2 ^ 24 % 256, n / 2 ^ 16 % 256, n / 2 ^ 8 % 256, n % 256]

/-- The `DataView.getUint8(off)` on a byte string (out-of-range reads as 0). -/
def getUint8 (bs : List Nat) (off : Nat) : Nat := bs.getD off 0

/-- The `DataView.getUint16(off, false)` (big-endian). -/
def getUint16 (bs : List Nat) (off : Nat) : Nat :=
  bs.getD off 0 * 2 ^ 8 + bs.getD (off + 1) 0

/-- The `DataView.getUint32(off, false)` (big-endian). -/
def getUint32 (bs : List Nat) (off : Nat) : Nat :=
  bs.getD off 0 * 2 ^ 24 + bs.getD (off + 1) 0 * 2 ^ 16 +
  bs.getD (off + 2) 0 * 2 ^ 8 + bs.getD (off + 3) 0

theorem getUint32_be32enc_append (n : Nat) (rest : List Nat) (h : n < 2 ^ 32) :
    getUint32 (be32enc n ++ rest) 0 = n := by
  simp only [be32enc, getUint32, List.cons_append, List.getD, List.get?, Option.getD]
  omega

/-! ## BarqProtocol.ts — header codec -/

/-- The `BarqHeader` (BarqProtocol.ts).  `type` is the numeric value of the
`BarqType` enum (DATA = 1, ACK = 2, ...). -/
structure BarqHeader where
  version : Nat
  type : Nat
  sequence : Nat
  timestamp : Nat
  length : Nat
  flags : Nat
  deriving Repr, DecidableEq

/-- The `BARQ_HEADER_SIZE` (BarqProtocol.ts). -/
def BARQ_HEADER_SIZE : Nat := 16

/-- The `encodeHeader` (BarqProtocol.ts lines 103-124): magic `0x42 0x51`,
version, type, big-endian sequence, truncated timestamp, length, flags.
Each `DataView.setUintN` write truncates its argument mod `2 ^ N`. -/
def encodeHeader (h : BarqHeader) : List Nat :=
  [0x42, 0x51, h.version % 256, h.type % 256] ++
  be32enc h.sequence ++
  be32enc (h.timestamp % 2 ^ 32) ++
  [h.length / 2 ^ 8 % 256, h.length % 256] ++
  [h.flags / 2 ^ 8 % 256, h.flags % 256]

/-- The `decodeHeader` (BarqProtocol.ts lines 129-147): `null` on inputs
shorter than 16 bytes or with wrong magic, otherwise the parsed fields. -/
def decodeHeader (bs : List Nat) : Option BarqHeader :=
  if bs.length < BARQ_HEADER_SIZE then none
  else if getUint8 bs 0 ≠ 0x42 ∨ getUint8 bs 1 ≠ 0x51 then none
  else some
    { version := getUint8 bs 2
      type := getUint8 bs 3
      sequence := getUint32 bs 4
      timestamp := getUint32 bs 8
      length := getUint16 bs 12
      flags := getUint16 bs 14 }

/-- C5 -- For every header with fields in their wire ranges and every
payload, decoding the bytes produced by encoding recovers the header
exactly, and the encoding has the fixed 16-byte big-endian layout:
bytes 0-1 magic, byte 2 version, byte 3 type, bytes 4-7 sequence,
bytes 8-11 truncated timestamp, bytes 12-13 payload length,
bytes 14-15 flags. -/
theorem decodeHeader_encodeHeader (h : BarqHeader) (payload : List Nat)
    (hv : h.version < 256) (ht : h.type < 256) (hs : h.sequence < 2 ^ 32)
    (hts : h.timestamp < 2 ^ 32) (hl : h.length < 2 ^ 16) (hf : h.flags < 2 ^ 16) :
    decodeHeader (encodeHeader h ++ payload) = some h ∧
    encodeHeader h =
      [0x42, 0x51, h.version, h.type] ++ be32enc h.sequence ++
      be32enc h.timestamp ++
      [h.length / 2 ^ 8, h.length % 2 ^ 8] ++
      [h.flags / 2 ^ 8, h.flags % 2 ^ 8] := by
  constructor
  · simp only [decodeHeader, encodeHeader, be32enc, BARQ_HEADER_SIZE, getUint8, getUint16,
      getUint32, List.cons_append, List.length_cons, List.getD, List.get?, Option.getD,
      List.nil_append]
    have h16 : ¬ (16 + payload.length < 16) := by omega
    rw [if_neg (by simp)]
    rw [if_neg (by simp)]
    refine congrArg some ?_
    cases h with
    | mk v t s ts l f =>
      simp only at hv ht hs hts hl hf ⊢
      congr 1 <;> omega
  · simp only [encodeHeader, be32enc]
    have e1 : h.version % 256 = h.version := Nat.mod_eq_of_lt hv
    have e2 : h.type % 256 = h.type := Nat.mod_eq_of_lt ht
    have e3 : h.timestamp % 2 ^ 32 = h.timestamp := Nat.mod_eq_of_lt hts
    simp only [e1, e2, e3]
    norm_num
    constructor <;> omega

/-- Witness for C5 at a concrete header and payload. -/
theorem decodeHeader_encodeHeader_witness :
    decodeHeader (encodeHeader ⟨1, 2, 70000, 123456, 300, 5⟩ ++ [9, 9]) =
      some ⟨1, 2, 70000, 123456, 300, 5⟩ :=
  (decodeHeader_encodeHeader ⟨1, 2, 70000, 123456, 300, 5⟩ [9, 9]
    (by decide) (by decide) (by norm_num) (by norm_num) (by norm_num) (by norm_num)).1

/-- C9 -- `decodeHeader` is total on arbitrary byte strings: it returns
`none` exactly when the input is shorter than 16 bytes or the two magic
bytes are wrong, and a parsed header otherwise. -/
theorem decodeHeader_total (bs : List Nat) :
    (decodeHeader bs = none ↔
      bs.length < 16 ∨ getUint8 bs 0 ≠ 0x42 ∨ getUint8 bs 1 ≠ 0x51) ∧
    (decodeHeader bs ≠ none →
      decodeHeader bs = some
        { version := getUint8 bs 2
          type := getUint8 bs 3
          sequence := getUint32 bs 4
          timestamp := getUint32 bs 8
          length := getUint16 bs 12
          flags := getUint16 bs 14 }) := by
  unfold decodeHeader BARQ_HEADER_SIZE
  by_cases h1 : bs.length < 16
  · simp [h1]
  · by_cases h2 : getUint8 bs 0 ≠ 0x42 ∨ getUint8 bs 1 ≠ 0x51
    · simp [h1, h2]
    · simp [h1, h2]

/-- Witness for C9: a short garbage input is rejected with `none`. -/
theorem decodeHeader_total_witness : decodeHeader [0x43, 0x51] = none :=
  (decodeHeader_total [0x43, 0x51]).1.mpr (Or.inl (by decide))

/-! ## Miftah — puncturable key encryption

The Miftah module (appended to `MuttasilClient.ts` in the source pack)
implements the puncturable key store: `fataha` establishes a record,
`tashfir` encrypts with a per-sequence derived key, `thaqb` punctures a
sequence, `fakk` decrypts and punctures on success. -/

/-- Modelled from the spec: `sha256` is imported from
`../utils/CryptoShim`, which is not among the provided source files.
The spec (§4.1) only requires a deterministic KDF digest; the claims
depend on nothing beyond determinism and the fixed 32-byte output, so
the hash core is a computable stand-in digest of that shape. -/
def sha256 (bs : List Nat) : List Nat :=
  (List.range 32).map fun i => bs.foldl (fun a b => (a * 131 + b + 17) % 256) i

/-- Modelled from the spec: `sha512` from `../utils/CryptoShim`
(not among the provided sources), as a deterministic 64-byte digest. -/
def sha512 (bs : List Nat) : List Nat :=
  (List.range 64).map fun i => bs.foldl (fun a b => (a * 137 + b + 29) % 256) i

/-- The XOR cipher loop shared by `tashfir`/`fakk` (and by
`encryptPayload`/`decryptPayload` in BarqProtocol.ts):
`out[i] = in[i] ^ key[i % key.length]`, starting at index `i`. -/
def xorAt (key : List Nat) : Nat → List Nat → List Nat
  | _, [] => []
  | i, b :: bs => (b ^^^ key.getD (i % key.length) 0) :: xorAt key (i + 1) bs

theorem xorAt_xorAt (key : List Nat) (i : Nat) (bs : List Nat) :
    xorAt key i (xorAt key i bs) = bs := by
  induction bs generalizing i with
  | nil => rfl
  | cons b bs ih =>
      simp only [xorAt, Nat.xor_assoc, Nat.xor_self, Nat.xor_zero, ih]

/-- The `Miftah` — the per-peer puncturable key record. -/
structure Miftah where
  peerId : String
  masterSecret : List Nat
  puncturedSequences : Finset Nat
  currentSequence : Nat
  created : Nat
  lastPunctured : Nat
  deriving DecidableEq

/-- The `MAX_PUNCTURES` — rotation ceiling. -/
def MAX_PUNCTURES : Nat := 1000

/-- The `fataha` — create a key record: master secret is
`sha512(myPrivateKey || peerPublicKey)`, empty punctured set,
`currentSequence = 0`. -/
def fataha (peerId : String) (myPrivateKey peerPublicKey : List Nat) (now : Nat) : Miftah :=
  { peerId := peerId
    masterSecret := sha512 (myPrivateKey ++ peerPublicKey)
    puncturedSequences := ∅
    currentSequence := 0
    created := now
    lastPunctured := now }

/-- The `deriveSequenceKey` — `sha256(masterSecret || be64(sequence))`. -/
def deriveSequenceKey (masterSecret : List Nat) (sequence : Nat) : List Nat :=
  sha256 (masterSecret ++ be64enc sequence)

/-- The `needsRotation` for an existing record. -/
def needsRotation (m : Miftah) : Bool :=
  m.puncturedSequences.card ≥ MAX_PUNCTURES

/-- The `tashfir` — allocate `currentSequence` (post-incrementing it),
XOR-encrypt under the derived key, and emit the 4-byte big-endian
sequence followed by the ciphertext.  The base64 transport encoding of
the result round-trips and is modelled as the identity.  Returns
(`(bytes, sequence)`, updated record). -/
def tashfir (m : Miftah) (plaintext : List Nat) : (List Nat × Nat) × Miftah :=
  let sequence := m.currentSequence
  let seqKey := deriveSequenceKey m.masterSecret sequence
  let encrypted := xorAt seqKey 0 plaintext
  ((be32enc sequence ++ encrypted, sequence),
   { m with currentSequence := m.currentSequence + 1 })

/-- The `thaqb` — puncture: add the sequence to the punctured set. -/
def thaqb (m : Miftah) (sequence : Nat) (now : Nat) : Miftah :=
  { m with puncturedSequences := insert sequence m.puncturedSequences
           lastPunctured := now }

/-- The `fakk` — decrypt: read the leading 4-byte big-endian sequence; if it
is already punctured return `null` (replay) leaving the record as is;
otherwise XOR-"decrypt" (the `try` body cannot throw) and puncture.
Returns (`plaintext | null`, updated record). -/
def fakk (m : Miftah) (now : Nat) (data : List Nat) : Option (List Nat) × Miftah :=
  let sequence := getUint32 data 0
  let ciphertext := data.drop 4
  if sequence ∈ m.puncturedSequences then
    (none, m)
  else
    let seqKey := deriveSequenceKey m.masterSecret sequence
    let plaintext := xorAt seqKey 0 ciphertext
    (some plaintext, thaqb m sequence now)

/-- Any run of further `fakk` calls on a record, in order. -/
def fakkRun (m : Miftah) (calls : List (Nat × List Nat)) : Miftah :=
  calls.foldl (fun m c => (fakk m c.1 c.2).2) m

theorem fakk_punctured_mono (m : Miftah) (now : Nat) (data : List Nat) :
    m.puncturedSequences ⊆ (fakk m now data).2.puncturedSequences := by
  unfold fakk
  by_cases h : getUint32 data 0 ∈ m.puncturedSequences
  · simp [h]
  · simp only [h, if_false, thaqb]
    exact Finset.subset_insert _ _

theorem fakkRun_punctured_mono (m : Miftah) (calls : List (Nat × List Nat)) :
    m.puncturedSequences ⊆ (fakkRun m calls).puncturedSequences := by
  induction calls generalizing m with
  | nil => exact fun x hx => hx
  | cons c cs ih =>
      exact fun x hx =>
        ih (fakk m c.1 c.2).2 (fakk_punctured_mono m c.1 c.2 hx)

theorem fakk_replay (m : Miftah) (now : Nat) (data : List Nat)
    (h : getUint32 data 0 ∈ m.puncturedSequences) :
    fakk m now data = (none, m) := by
  unfold fakk
  simp [h]

theorem fakk_fresh_punctures (m : Miftah) (now : Nat) (data : List Nat)
    (h : getUint32 data 0 ∉ m.puncturedSequences) :
    (fakk m now data).1.isSome = true ∧
    getUint32 data 0 ∈ (fakk m now data).2.puncturedSequences := by
  unfold fakk
  simp [h, thaqb]

/-- C1 -- Once a ciphertext carrying sequence `S` has been successfully
decrypted (which requires `S` to be fresh, and punctures it), every
subsequent `fakk` call on the record with any ciphertext carrying `S`
returns `null` (the replay result) and leaves the record unchanged, no
matter which other calls happen in between or how often it is retried. -/
theorem fakk_replay_after_success (m : Miftah) (now₀ : Nat) (c₀ : List Nat)
    (hfresh : getUint32 c₀ 0 ∉ m.puncturedSequences)
    (calls : List (Nat × List Nat)) (now : Nat) (c : List Nat)
    (hseq : getUint32 c 0 = getUint32 c₀ 0) :
    (fakk m now₀ c₀).1.isSome = true ∧
    fakk (fakkRun (fakk m now₀ c₀).2 calls) now c =
      (none, fakkRun (fakk m now₀ c₀).2 calls) := by
  obtain ⟨hsome, hpunct⟩ := fakk_fresh_punctures m now₀ c₀ hfresh
  refine ⟨hsome, fakk_replay _ now c ?_⟩
  rw [hseq]
  exact fakkRun_punctured_mono (fakk m now₀ c₀).2 calls hpunct

/-- A concrete established record used by the witnesses. -/
def sampleMiftah : Miftah := fataha "bob" [1, 2, 3] [4, 5, 6] 0

/-- Witness for C1: a successful decrypt of sequence 0, then an
unrelated decrypt, then a replay of sequence 0 with different bytes. -/
theorem fakk_replay_after_success_witness :
    (fakk sampleMiftah 1 [0, 0, 0, 0, 42]).1.isSome = true ∧
    fakk (fakkRun (fakk sampleMiftah 1 [0, 0, 0, 0, 42]).2 [(2, [0, 0, 0, 1, 7])])
        3 [0, 0, 0, 0, 99] =
      (none, fakkRun (fakk sampleMiftah 1 [0, 0, 0, 0, 42]).2 [(2, [0, 0, 0, 1, 7])]) :=
  fakk_replay_after_success sampleMiftah 1 [0, 0, 0, 0, 42] (by decide)
    [(2, [0, 0, 0, 1, 7])] 3 [0, 0, 0, 0, 99] (by decide)

/-- C2 (counter-evidence) -- the XOR "decryption" in `fakk` cannot fail:
on a forged or corrupted ciphertext carrying the fresh sequence 0 it
returns a non-`null` (garbage) plaintext and punctures sequence 0, so a
later legitimate ciphertext for sequence 0 is rejected as a replay.
There is no authentication-failure path in the code at all. -/
theorem fakk_forged_ciphertext_bug :
    (fakk sampleMiftah 7 [0, 0, 0, 0, 255]).1.isSome = true ∧
    0 ∈ (fakk sampleMiftah 7 [0, 0, 0, 0, 255]).2.puncturedSequences ∧
    (fakk (fakk sampleMiftah 7 [0, 0, 0, 0, 255]).2 8
        ((tashfir sampleMiftah [104, 105]).1.1)).1 = none := by
  refine ⟨?_, ?_, ?_⟩
  · exact (fakk_fresh_punctures sampleMiftah 7 [0, 0, 0, 0, 255] (by decide)).1
  · exact (fakk_fresh_punctures sampleMiftah 7 [0, 0, 0, 0, 255] (by decide)).2
  · decide

/-- C3 -- Encrypt-then-decrypt round trip: for a record whose next send
sequence is within the 4-byte wire range and not previously punctured,
`fakk` applied (once) to the output of `tashfir` returns exactly the
original plaintext bytes. -/
theorem fakk_tashfir_roundtrip (m : Miftah) (plaintext : List Nat) (now : Nat)
    (hseq : m.currentSequence < 2 ^ 32)
    (hfresh : m.currentSequence ∉ m.puncturedSequences) :
    (fakk (tashfir m plaintext).2 now (tashfir m plaintext).1.1).1 =
      some plaintext := by
  unfold tashfir fakk
  simp only
  rw [getUint32_be32enc_append m.currentSequence _ hseq]
  simp only [hfresh, if_false]
  rw [List.drop_append_of_le_length (by simp [be32enc])]
  simp [be32enc, xorAt_xorAt]

/-- Witness for C3 at a concrete record and plaintext. -/
theorem fakk_tashfir_roundtrip_witness :
    (fakk (tashfir sampleMiftah [104, 105, 33]).2 5
        (tashfir sampleMiftah [104, 105, 33]).1.1).1 = some [104, 105, 33] :=
  fakk_tashfir_roundtrip sampleMiftah [104, 105, 33] 5 (by decide) (by decide)

/-! ## Nabd — pulse timing / gap tracker (`src/unnamed/part_004`) -/

/-- The `NabdState` — per-peer pulse state. -/
structure NabdState where
  peerId : String
  expectedSequence : Nat
  lastPulse : Nat
  missedPulses : Nat
  gaps : Finset Nat
  lastReceived : Nat
  deriving DecidableEq

/-- The `initTiming` — fresh tracker state for a connection. -/
def initTiming (peerId : String) (now : Nat) : NabdState :=
  { peerId := peerId
    expectedSequence := 0
    lastPulse := now
    missedPulses := 0
    gaps := ∅
    lastReceived := now }

/-- The `onReceive` (part_004 lines 48-73): on a forward jump the loop adds
every `i ∈ [expectedSequence, sequence)` to `gaps` and to the returned
`nacks` list; the received sequence is then removed from `gaps`, and
`expectedSequence` becomes `max(expectedSequence, sequence + 1)`. -/
def onReceive (s : NabdState) (sequence now : Nat) : List Nat × NabdState :=
  let nacks : List Nat :=
    if s.expectedSequence < sequence then
      List.range' s.expectedSequence (sequence - s.expectedSequence)
    else []
  let gaps1 := nacks.foldl (fun g i => insert i g) s.gaps
  let gaps2 := gaps1.erase sequence
  (nacks,
   { s with lastReceived := now
            missedPulses := 0
            gaps := gaps2
            expectedSequence := max s.expectedSequence (sequence + 1) })

theorem mem_foldl_insert (l : List Nat) (g : Finset Nat) (x : Nat) :
    x ∈ l.foldl (fun g i => insert i g) g ↔ x ∈ g ∨ x ∈ l := by
  induction l generalizing g with
  | nil => simp
  | cons a l ih =>
      simp only [List.foldl_cons, ih, Finset.mem_insert, List.mem_cons]
      tauto

/-- C4 -- `onReceive` returns exactly the integers in
`[expectedSequence, sequence)` (all added to the gap set) on a forward
jump, returns `[]` and opens no gap otherwise (a late duplicate never
re-opens a gap), always removes the received sequence from the gap set,
and updates `expectedSequence` to `max(expectedSequence, sequence+1)`;
in particular after receives of 0, 1, 3 the third call returns `[2]`. -/
theorem onReceive_spec (s : NabdState) (sequence now : Nat) :
    (s.expectedSequence < sequence →
      (onReceive s sequence now).1 =
        List.range' s.expectedSequence (sequence - s.expectedSequence) ∧
      ∀ i, s.expectedSequence ≤ i → i < sequence →
        i ∈ (onReceive s sequence now).2.gaps) ∧
    (sequence ≤ s.expectedSequence →
      (onReceive s sequence now).1 = [] ∧
      (onReceive s sequence now).2.gaps = s.gaps.erase sequence) ∧
    sequence ∉ (onReceive s sequence now).2.gaps ∧
    (onReceive s sequence now).2.expectedSequence =
      max s.expectedSequence (sequence + 1) ∧
    (onReceive (onReceive (onReceive (initTiming "p" 0) 0 0).2 1 0).2 3 0).1 = [2] := by
  refine ⟨fun hlt => ⟨?_, fun i h1 h2 => ?_⟩, fun hge => ⟨?_, ?_⟩, ?_, ?_, by decide⟩
  · simp [onReceive, hlt]
  · simp only [onReceive, hlt, if_true, Finset.mem_erase, mem_foldl_insert]
    refine ⟨by omega, Or.inr ?_⟩
    rw [List.mem_range']
    exact ⟨i - s.expectedSequence, by omega, by omega⟩
  · simp [onReceive, Nat.not_lt.mpr hge]
  · simp [onReceive, Nat.not_lt.mpr hge]
  · simp [onReceive]
  · simp [onReceive]

/-- Witness for C4: with state `expectedSequence = 0`, receiving 3
returns `[0, 1, 2]`, and 3 itself is not left in the gap set. -/
theorem onReceive_spec_witness :
    (onReceive (initTiming "p" 0) 3 0).1 = List.range' 0 3 ∧
    3 ∉ (onReceive (initTiming "p" 0) 3 0).2.gaps := by
  have h := onReceive_spec (initTiming "p" 0) 3 0
  exact ⟨(h.1 (by decide)).1, h.2.2.1⟩

/-! ## Sayl — congestion-aware flow control (`src/unnamed/part_008`)

Floating-point state is modelled by `ℚ`.  The `Math.min(Infinity, rtt)`
initialization of `rttMin` is modelled with `Option ℚ` (`none` stands
for `Infinity`).  The `setTimeout`-based throttle recovery in `onLoss`
is a wall-clock event outside the shallow embedding; `onLoss` itself
only sets `throttled := true`. -/

/-- The `SaylState` — per-peer flow state. -/
structure SaylState where
  peerId : String
  congestionWindow : ℚ
  bytesInFlight : Nat
  packetsInFlight : Nat
  bandwidth : ℚ
  rttMin : Option ℚ
  rttSmoothed : ℚ
  throttled : Bool
  deriving DecidableEq

/-- The `INITIAL_CWND`. -/
def INITIAL_CWND : ℚ := 10

/-- The `MIN_CWND`. -/
def MIN_CWND : ℚ := 2

/-- The `MAX_CWND`. -/
def MAX_CWND : ℚ := 100

/-- The `Math.floor` on the exact rational value. -/
def jsFloor (q : ℚ) : ℚ := (⌊q⌋ : ℚ)

/-- The `Math.min` where the accumulator may be the initial `Infinity`. -/
def jsMinInf (m : Option ℚ) (r : ℚ) : Option ℚ :=
  match m with
  | none => some r
  | some v => some (min v r)

/-- The record produced by `initFlow`. -/
def initFlowState (peerId : String) : SaylState :=
  { peerId := peerId
    congestionWindow := INITIAL_CWND
    bytesInFlight := 0
    packetsInFlight := 0
    bandwidth := 0
    rttMin := none
    rttSmoothed := 100
    throttled := false }

/-- The state change `onAck` applies to an existing flow record:
in-flight counters floored at 0, RTT EWMA (α = 1/8), bandwidth EWMA,
and additive increase capped at `MAX_CWND` when not throttled. -/
def onAckFlow (f : SaylState) (bytes : Nat) (rtt : ℚ) : SaylState :=
  let f1 := { f with
    bytesInFlight := f.bytesInFlight - bytes
    packetsInFlight := f.packetsInFlight - 1
    rttMin := jsMinInf f.rttMin rtt
    rttSmoothed := f.rttSmoothed * (7 / 8) + rtt * (1 / 8) }
  let f2 :=
    if 0 < rtt then
      { f1 with bandwidth :=
          f.bandwidth * (9 / 10) + ((bytes : ℚ) / (rtt / 1000)) * (1 / 10) }
    else f1
  if f.throttled = false then
    { f2 with
      congestionWindow := min MAX_CWND (f.congestionWindow + 1 / f.congestionWindow) }
  else f2

/-- The state change `onLoss` applies to an existing flow record:
multiplicative decrease floored at `MIN_CWND`, and throttling. -/
def onLossFlow (f : SaylState) : SaylState :=
  { f with
    congestionWindow := max MIN_CWND (jsFloor (f.congestionWindow / 2))
    throttled := true }

/-- The module-level `flows: Map<string, SaylState>`, as an association
list in insertion order. -/
def setFlow (flows : List (String × SaylState)) (p : String) (v : SaylState) :
    List (String × SaylState) :=
  flows.map fun kv => if kv.1 == p then (kv.1, v) else kv

/-- The `canSend` (part_008 lines 51-56): `true` when there is no flow state
for the peer, else `packetsInFlight < congestionWindow`. -/
def canSend (flows : List (String × SaylState)) (p : String) : Bool :=
  match List.lookup p flows with
  | none => true
  | some f => decide ((f.packetsInFlight : ℚ) < f.congestionWindow)

/-- The `onSend` (part_008 lines 61-67): no-op on an unknown peer. -/
def onSend (flows : List (String × SaylState)) (p : String) (bytes : Nat) :
    List (String × SaylState) :=
  match List.lookup p flows with
  | none => flows
  | some f =>
      setFlow flows p
        { f with bytesInFlight := f.bytesInFlight + bytes
                 packetsInFlight := f.packetsInFlight + 1 }

/-- The `onAck` (part_008 lines 72-96): no-op on an unknown peer. -/
def onAck (flows : List (String × SaylState)) (p : String) (bytes : Nat) (rtt : ℚ) :
    List (String × SaylState) :=
  match List.lookup p flows with
  | none => flows
  | some f => setFlow flows p (onAckFlow f bytes rtt)

/-- The `onLoss` (part_008 lines 101-117): no-op on an unknown peer. -/
def onLoss (flows : List (String × SaylState)) (p : String) :
    List (String × SaylState) :=
  match List.lookup p flows with
  | none => flows
  | some f => setFlow flows p (onLossFlow f)

/-- C6 -- On a flow record with `congestionWindow ≥ MIN_CWND` (as every
initialized flow state has), `onLoss` sets the window to
`max(MIN_CWND, floor(window / 2))`; this never increases the window and
strictly decreases it whenever it is above the `MIN_CWND` floor. -/
theorem onLoss_multiplicative_decrease (flows : List (String × SaylState))
    (p : String) (f : SaylState) (hf : List.lookup p flows = some f)
    (hmin : MIN_CWND ≤ f.congestionWindow) :
    onLoss flows p = setFlow flows p (onLossFlow f) ∧
    (onLossFlow f).congestionWindow =
      max MIN_CWND (jsFloor (f.congestionWindow / 2)) ∧
    (onLossFlow f).congestionWindow ≤ f.congestionWindow ∧
    (MIN_CWND < f.congestionWindow →
      (onLossFlow f).congestionWindow < f.congestionWindow) := by
  have hfloor : jsFloor (f.congestionWindow / 2) ≤ f.congestionWindow / 2 :=
    Int.floor_le _
  have hpos : (0 : ℚ) < f.congestionWindow := by
    have : (0 : ℚ) < MIN_CWND := by norm_num [MIN_CWND]
    linarith
  refine ⟨by simp [onLoss, hf], rfl, ?_, fun hlt => ?_⟩
  · simp only [onLossFlow]
    apply max_le hmin
    linarith
  · simp only [onLossFlow]
    apply max_lt hlt
    linarith

/-- Witness for C6 on a freshly initialized flow. -/
theorem onLoss_multiplicative_decrease_witness :
    onLoss [("a", initFlowState "a")] "a" =
      setFlow [("a", initFlowState "a")] "a" (onLossFlow (initFlowState "a")) ∧
    (onLossFlow (initFlowState "a")).congestionWindow <
      (initFlowState "a").congestionWindow := by
  have h := onLoss_multiplicative_decrease [("a", initFlowState "a")] "a"
    (initFlowState "a") (by rfl) (by norm_num [MIN_CWND, initFlowState, INITIAL_CWND])
  exact ⟨h.1, h.2.2.2 (by norm_num [MIN_CWND, initFlowState, INITIAL_CWND])⟩

theorem cwnd_ge_min_invariant (p : String) (f : SaylState) (bytes : Nat) (rtt : ℚ)
    (h : MIN_CWND ≤ f.congestionWindow) :
    MIN_CWND ≤ (initFlowState p).congestionWindow ∧
    MIN_CWND ≤ (onAckFlow f bytes rtt).congestionWindow ∧
    MIN_CWND ≤ (onLossFlow f).congestionWindow := by
  have hpos : (0 : ℚ) < f.congestionWindow := by
    have : (0 : ℚ) < MIN_CWND := by norm_num [MIN_CWND]
    linarith
  refine ⟨by norm_num [initFlowState, INITIAL_CWND, MIN_CWND], ?_, le_max_left _ _⟩
  unfold onAckFlow
  by_cases ht : f.throttled = false
  · have hinv : (0 : ℚ) ≤ 1 / f.congestionWindow := by positivity
    have h2 : (2 : ℚ) ≤ f.congestionWindow := h
    by_cases hr : 0 < rtt <;>
      simp only [ht, hr, if_true, if_false, le_min_iff, MIN_CWND, MAX_CWND] <;>
      exact ⟨by norm_num, by linarith⟩
  · by_cases hr : 0 < rtt <;> simp [ht, hr, h]

/-- C7 -- Every flow-controller operation on a peer with no flow state
is an error-free no-op degrading to "unthrottled": `canSend` answers
`true`, and `onSend`, `onAck`, `onLoss` leave the flow map unchanged. -/
theorem unknown_peer_noop (flows : List (String × SaylState)) (p : String)
    (bytes : Nat) (rtt : ℚ) (h : List.lookup p flows = none) :
    canSend flows p = true ∧
    onSend flows p bytes = flows ∧
    onAck flows p bytes rtt = flows ∧
    onLoss flows p = flows := by
  refine ⟨?_, ?_, ?_, ?_⟩ <;> simp [canSend, onSend, onAck, onLoss, h]

/-- Witness for C7: operations on a peer absent from the flow map. -/
theorem unknown_peer_noop_witness :
    canSend [("a", initFlowState "a")] "b" = true ∧
    onSend [("a", initFlowState "a")] "b" 5 = [("a", initFlowState "a")] ∧
    onAck [("a", initFlowState "a")] "b" 5 3 = [("a", initFlowState "a")] ∧
    onLoss [("a", initFlowState "a")] "b" = [("a", initFlowState "a")] :=
  unknown_peer_noop [("a", initFlowState "a")] "b" 5 3 (by rfl)

/-! ## BarqProtocol.ts — connections and packet processing -/

/-- The `BarqType.ACK`. -/
def BarqTypeACK : Nat := 2

/-- The `BarqConnection` (BarqProtocol.ts). -/
structure BarqConnection where
  peerId : String
  peerPublicKey : List Nat
  sharedSecret : List Nat
  sendSequence : Nat
  recvSequence : Nat
  rtt : ℚ
  lastSeen : Nat
  pendingAcks : Finset Nat
  created : Nat
  deriving DecidableEq

/-- The `deriveSecret` — `sha256(senderPrivateKey || recipientPublicKey)`. -/
def deriveSecret (senderPrivateKey recipientPublicKey : List Nat) : List Nat :=
  sha256 (senderPrivateKey ++ recipientPublicKey)

/-- The `createConnection` (BarqProtocol.ts lines 200-222). -/
def createConnection (myPrivateKey : List Nat) (peerId : String)
    (peerPublicKey : List Nat) (now : Nat) : BarqConnection :=
  { peerId := peerId
    peerPublicKey := peerPublicKey
    sharedSecret := deriveSecret myPrivateKey peerPublicKey
    sendSequence := 0
    recvSequence := 0
    rtt := 100
    lastSeen := now
    pendingAcks := ∅
    created := now }

/-- The `encryptPayload` — XOR under `sha256(secret || be32(sequence))`. -/
def encryptPayload (secret : List Nat) (sequence : Nat) (plaintext : List Nat) :
    List Nat :=
  xorAt (sha256 (secret ++ be32enc sequence)) 0 plaintext

/-- The `decryptPayload` (BarqProtocol.ts lines 174-195): the `try` body is
a pure XOR loop that cannot throw, so the `catch` branch returning
`null` is unreachable and the result is always non-`null`. -/
def decryptPayload (secret : List Nat) (sequence : Nat) (ciphertext : List Nat) :
    Option (List Nat) :=
  some (xorAt (sha256 (secret ++ be32enc sequence)) 0 ciphertext)

/-- The mutation `processPacket` applies to the matched connection:
ACK bookkeeping with wraparound-safe RTT smoothing, then `lastSeen` and
`recvSequence` updates. -/
def updateOnPacket (conn : BarqConnection) (h : BarqHeader) (now : Nat) :
    BarqConnection :=
  let c1 :=
    if h.type = BarqTypeACK then
      let now32 : Nat := now % 2 ^ 32
      let rtt : Int :=
        ((now32 : Int) - (h.timestamp : Int) + (2 ^ 32 : Int)) % (2 ^ 32 : Int)
      { conn with
        pendingAcks := conn.pendingAcks.erase h.sequence
        rtt := conn.rtt * (4 / 5) + (rtt : ℚ) * (1 / 5) }
    else conn
  { c1 with
    lastSeen := now
    recvSequence := max conn.recvSequence (h.sequence + 1) }

/-- The `for (const [peerId, conn] of connections)` trial-decryption
loop of `processPacket`, over the insertion-ordered association list. -/
def processLoop (h : BarqHeader) (data : List Nat) (now : Nat) :
    List (String × BarqConnection) →
      Option (String × List Nat) × List (String × BarqConnection)
  | [] => (none, [])
  | (pid, conn) :: rest =>
      match decryptPayload conn.sharedSecret h.sequence (data.drop BARQ_HEADER_SIZE) with
      | some decrypted =>
          (some (pid, decrypted), (pid, updateOnPacket conn h now) :: rest)
      | none =>
          let r := processLoop h data now rest
          (r.1, (pid, conn) :: r.2)

/-- The `processPacket` (BarqProtocol.ts lines 267-302): decode the header,
then try each known connection in `Map` iteration (insertion) order.
The decoded payload is returned as bytes (`TextDecoder` is modelled as
the identity on the byte level). -/
def processPacket (conns : List (String × BarqConnection)) (data : List Nat)
    (now : Nat) :
    Option (String × List Nat) × List (String × BarqConnection) :=
  match decodeHeader data with
  | none => (none, conns)
  | some h => processLoop h data now conns

/-- C10 -- `decryptPayload` never returns `null`, so whenever the
connection map is non-empty and the input's first 16 bytes decode as a
valid header, `processPacket` returns a non-`null` result attributed to
the first connection in the map's insertion order: the trial-decryption
loop cannot distinguish the true sender. -/
theorem processPacket_attributes_first (conns : List (String × BarqConnection))
    (data : List Nat) (now : Nat) (h : BarqHeader)
    (hne : conns ≠ []) (hdr : decodeHeader data = some h) :
    (∀ s q c, (decryptPayload s q c).isSome = true) ∧
    ((processPacket conns data now).1).map Prod.fst = some (conns.head hne).1 := by
  refine ⟨fun s q c => rfl, ?_⟩
  match conns with
  | (pid, conn) :: rest =>
      simp [processPacket, hdr, processLoop, decryptPayload]

/-- Witness for C10: a packet "from" a second peer is decrypted under
the first map entry's key and attributed to the first peer. -/
theorem processPacket_attributes_first_witness :
    ((processPacket
        [("alice", createConnection [1] "alice" [2] 0),
         ("carol", createConnection [3] "carol" [4] 0)]
        (encodeHeader ⟨1, 1, 0, 0, 2, 0⟩ ++ [90, 91]) 5).1).map Prod.fst =
      some "alice" :=
  (processPacket_attributes_first
    [("alice", createConnection [1] "alice" [2] 0),
     ("carol", createConnection [3] "carol" [4] 0)]
    (encodeHeader ⟨1, 1, 0, 0, 2, 0⟩ ++ [90, 91]) 5 ⟨1, 1, 0, 0, 2, 0⟩
    (List.cons_ne_nil _ _) (by decide)).2

/-! ## ZBATProtocol.ts — dual-layer envelope

`serializeTabaq` emits `[zahirLen:4][zahir JSON][ghilaf JSON]` and
`extractZahir` parses only the length-prefixed zahir slice.  The JSON
layer (`JSON.stringify` of the fixed-shape `Zahir` object, and
`JSON.parse` on its output grammar) is embedded concretely below:
decimal number printing/reading and JS string escaping/unescaping.
Text is modelled at the Unicode-scalar level (`Char`), with
`TextEncoder`/`TextDecoder` as the scalar-value identity. -/

/-- The character of a decimal digit. -/
def digitToChar (d : Nat) : Char := Char.ofNat (48 + d)

/-- Decimal digit test on a character. -/
def isDigitChar (c : Char) : Bool := 48 ≤ c.toNat && c.toNat ≤ 57

/-- Whether a character list starts with a decimal digit. -/
def headIsDigit : List Char → Bool
  | [] => false
  | c :: _ => isDigitChar c

/-- Fuelled decimal printing of a natural number (most significant digit
first); the fuel is structural so the kernel can evaluate it. -/
def natDigitsAux : Nat → Nat → List Char
  | 0, _ => []
  | fuel + 1, n =>
      if n < 10 then [digitToChar n]
      else natDigitsAux fuel (n / 10) ++ [digitToChar (n % 10)]

/-- Decimal printing of a natural number, as `JSON.stringify` prints the
(integral) numeric fields of a `Zahir`. -/
def natChars (n : Nat) : List Char := natDigitsAux (n + 1) n

/-- Consume further decimal digits, accumulating the value. -/
def parseNatAux : List Char → Nat → Nat × List Char
  | [], acc => (acc, [])
  | c :: rest, acc =>
      if isDigitChar c then parseNatAux rest (acc * 10 + (c.toNat - 48))
      else (acc, c :: rest)

/-- Parse a decimal number (as `JSON.parse` reads the numeric fields). -/
def parseNat : List Char → Option (Nat × List Char)
  | [] => none
  | c :: rest =>
      if isDigitChar c then some (parseNatAux rest (c.toNat - 48)) else none

theorem digitToChar_toNat (d : Nat) (h : d < 10) : (digitToChar d).toNat = 48 + d := by
  interval_cases d <;> rfl

theorem isDigitChar_digitToChar (d : Nat) (h : d < 10) :
    isDigitChar (digitToChar d) = true := by
  interval_cases d <;> rfl

theorem parseNatAux_digits (ds : List Char) (rest : List Char) (acc : Nat)
    (hds : ∀ c ∈ ds, isDigitChar c = true) (hrest : headIsDigit rest = false) :
    parseNatAux (ds ++ rest) acc =
      (ds.foldl (fun a c => a * 10 + (c.toNat - 48)) acc, rest) := by
  induction ds generalizing acc with
  | nil =>
      cases rest with
      | nil => rfl
      | cons c r =>
          simp only [headIsDigit] at hrest
          simp [parseNatAux, hrest]
  | cons c cs ih =>
      have hc : isDigitChar c = true := hds c (List.mem_cons_self c cs)
      simp only [List.cons_append, parseNatAux, hc, if_true, List.foldl_cons]
      exact ih _ fun x hx => hds x (List.mem_cons_of_mem c hx)

theorem natDigitsAux_all_digits (fuel : Nat) :
    ∀ n, ∀ c ∈ natDigitsAux fuel n, isDigitChar c = true := by
  induction fuel with
  | zero => intro n c hc; simp [natDigitsAux] at hc
  | succ fuel ih =>
      intro n c hc
      by_cases h10 : n < 10
      · simp only [natDigitsAux, h10, if_true, List.mem_singleton] at hc
        exact hc ▸ isDigitChar_digitToChar n h10
      · simp only [natDigitsAux, h10, if_false, List.mem_append,
          List.mem_singleton] at hc
        rcases hc with hc | hc
        · exact ih (n / 10) c hc
        · exact hc ▸ isDigitChar_digitToChar (n % 10) (Nat.mod_lt n (by norm_num))

theorem natDigitsAux_foldl (fuel : Nat) :
    ∀ n acc, n < 10 ^ fuel →
      (natDigitsAux fuel n).foldl (fun a c => a * 10 + (c.toNat - 48)) acc =
        acc * 10 ^ (natDigitsAux fuel n).length + n := by
  induction fuel with
  | zero =>
      intro n acc h
      interval_cases n
      simp [natDigitsAux]
  | succ fuel ih =>
      intro n acc h
      by_cases h10 : n < 10
      · simp [natDigitsAux, h10, digitToChar_toNat n h10]
      · simp only [natDigitsAux, h10, if_false]
        rw [List.foldl_append]
        have hdiv : n / 10 < 10 ^ fuel := by
          rw [Nat.div_lt_iff_lt_mul (by norm_num)]
          calc n < 10 ^ (fuel + 1) := h
          _ = 10 ^ fuel * 10 := by ring
        rw [ih (n / 10) acc hdiv]
        simp only [List.foldl_cons, List.foldl_nil, List.length_append,
          List.length_singleton, digitToChar_toNat (n % 10) (Nat.mod_lt n (by norm_num))]
        rw [pow_succ, ← mul_assoc]
        generalize acc * 10 ^ (natDigitsAux fuel (n / 10)).length = A
        omega

theorem natDigitsAux_ne_nil (fuel n : Nat) : natDigitsAux (fuel + 1) n ≠ [] := by
  by_cases h10 : n < 10 <;> simp [natDigitsAux, h10]

theorem parseNat_natChars (n : Nat) (rest : List Char)
    (hrest : headIsDigit rest = false) :
    parseNat (natChars n ++ rest) = some (n, rest) := by
  have hlt : n < 10 ^ (n + 1) := by
    rcases Nat.eq_zero_or_pos n with h0 | h0
    · simp [h0]
    · calc n < 10 ^ n := Nat.lt_pow_self (by norm_num) n
      _ ≤ 10 ^ (n + 1) := Nat.pow_le_pow_right (by norm_num) (Nat.le_succ n)
  have hfold := natDigitsAux_foldl (n + 1) n 0 hlt
  have hall := natDigitsAux_all_digits (n + 1) n
  unfold natChars
  cases hne : natDigitsAux (n + 1) n with
  | nil => exact absurd hne (natDigitsAux_ne_nil n n)
  | cons c cs =>
      rw [hne] at hfold hall
      have hc : isDigitChar c = true := hall c (List.mem_cons_self c cs)
      simp only [List.cons_append, parseNat, hc, if_true]
      rw [parseNatAux_digits cs rest (c.toNat - 48)
        (fun x hx => hall x (List.mem_cons_of_mem c hx)) hrest]
      simp only [List.foldl_cons, Nat.zero_mul, Nat.zero_add] at hfold
      rw [hfold]

/-- Lower-case hexadecimal digit character. -/
def hexDigitChar (n : Nat) : Char :=
  if n < 10 then Char.ofNat (48 + n) else Char.ofNat (87 + n)

/-- Hexadecimal digit value of a character (JSON allows both cases). -/
def hexVal (c : Char) : Option Nat :=
  if 48 ≤ c.toNat ∧ c.toNat ≤ 57 then some (c.toNat - 48)
  else if 97 ≤ c.toNat ∧ c.toNat ≤ 102 then some (c.toNat - 87)
  else if 65 ≤ c.toNat ∧ c.toNat ≤ 70 then some (c.toNat - 55)
  else none

theorem hexVal_hexDigitChar (n : Nat) (h : n < 16) :
    hexVal (hexDigitChar n) = some n := by
  interval_cases n <;> rfl

/-- The `JSON.stringify` escaping of one string character. -/
def jsonEscapeChar (c : Char) : List Char :=
  if c = '"' then ['\\', '"']
  else if c = '\\' then ['\\', '\\']
  else if c.toNat = 8 then ['\\', 'b']
  else if c.toNat = 9 then ['\\', 't']
  else if c.toNat = 10 then ['\\', 'n']
  else if c.toNat = 12 then ['\\', 'f']
  else if c.toNat = 13 then ['\\', 'r']
  else if c.toNat < 32 then
    ['\\', 'u', '0', '0', hexDigitChar (c.toNat / 16), hexDigitChar (c.toNat % 16)]
  else [c]

/-- The `JSON.stringify` escaping of a whole string body. -/
def escString (s : List Char) : List Char :=
  s.foldr (fun c acc => jsonEscapeChar c ++ acc) []

/-- The `JSON.stringify` of a string value, quotes included. -/
def jsonStringChars (s : String) : List Char :=
  '"' :: (escString s.data ++ ['"'])

/-- The `JSON.parse` value of a single-character escape. -/
def unescapeChar : Char → Option Char
  | '"' => some '"'
  | '\\' => some '\\'
  | '/' => some '/'
  | 'b' => some (Char.ofNat 8)
  | 't' => some (Char.ofNat 9)
  | 'n' => some (Char.ofNat 10)
  | 'f' => some (Char.ofNat 12)
  | 'r' => some (Char.ofNat 13)
  | _ => none

/-- The `JSON.parse` string-body scanning, after the opening quote: collect
characters until the closing quote, resolving escapes, rejecting raw
control characters and malformed escapes. -/
def goStr : List Char → Option (List Char × List Char)
  | [] => none
  | c :: rest =>
      if c = '"' then some ([], rest)
      else if c = '\\' then
        match rest with
        | [] => none
        | e :: rest2 =>
            if e = 'u' then
              match rest2 with
              | d1 :: d2 :: d3 :: d4 :: rest3 =>
                  match hexVal d1, hexVal d2, hexVal d3, hexVal d4 with
                  | some a, some b, some x, some y =>
                      (goStr rest3).map fun p =>
                        (Char.ofNat (((a * 16 + b) * 16 + x) * 16 + y) :: p.1, p.2)
                  | _, _, _, _ => none
              | _ => none
            else
              match unescapeChar e with
              | some u => (goStr rest2).map fun p => (u :: p.1, p.2)
              | none => none
      else if c.toNat < 32 then none
      else (goStr rest).map fun p => (c :: p.1, p.2)

/-- The `JSON.parse` of a string value, quotes included. -/
def parseJsonString : List Char → Option (String × List Char)
  | '"' :: rest => (goStr rest).map fun p => (String.mk p.1, p.2)
  | _ => none

theorem goStr_escString (s : List Char) (rest : List Char) :
    goStr (escString s ++ ('"' :: rest)) = some (s, rest) := by
  induction s with
  | nil =>
      show goStr ('"' :: rest) = some ([], rest)
      rw [goStr.eq_def]
      simp
  | cons c cs ih =>
      have hesc : escString (c :: cs) = jsonEscapeChar c ++ escString cs := rfl
      rw [hesc, List.append_assoc]
      by_cases h1 : c = '"'
      · subst h1
        simp only [jsonEscapeChar, if_pos rfl, List.cons_append, List.nil_append]
        rw [goStr.eq_def]
        simp [unescapeChar, ih]
      · by_cases h2 : c = '\\'
        · subst h2
          simp only [jsonEscapeChar, if_neg (by decide : ¬('\\' : Char) = '"'),
            if_pos rfl, List.cons_append, List.nil_append]
          rw [goStr.eq_def]
          simp [unescapeChar, ih]
        · by_cases h3 : c.toNat = 8
          · have hc : Char.ofNat 8 = c := by rw [← h3, Char.ofNat_toNat]
            simp only [jsonEscapeChar, h1, h2, h3, if_true, if_false,
              List.cons_append, List.nil_append]
            rw [goStr.eq_def]
            simp [unescapeChar, ih]
            exact hc
          · by_cases h4 : c.toNat = 9
            · have hc : Char.ofNat 9 = c := by rw [← h4, Char.ofNat_toNat]
              simp only [jsonEscapeChar, h1, h2, h3, h4, if_true, if_false,
                List.cons_append, List.nil_append]
              rw [goStr.eq_def]
              simp [unescapeChar, ih]
              exact hc
            · by_cases h5 : c.toNat = 10
              · have hc : Char.ofNat 10 = c := by rw [← h5, Char.ofNat_toNat]
                simp only [jsonEscapeChar, h1, h2, h3, h4, h5, if_true, if_false,
                  List.cons_append, List.nil_append]
                rw [goStr.eq_def]
                simp [unescapeChar, ih]
                exact hc
              · by_cases h6 : c.toNat = 12
                · have hc : Char.ofNat 12 = c := by rw [← h6, Char.ofNat_toNat]
                  simp only [jsonEscapeChar, h1, h2, h3, h4, h5, h6, if_true,
                    if_false, List.cons_append, List.nil_append]
                  rw [goStr.eq_def]
                  simp [unescapeChar, ih]
                  exact hc
                · by_cases h7 : c.toNat = 13
                  · have hc : Char.ofNat 13 = c := by rw [← h7, Char.ofNat_toNat]
                    simp only [jsonEscapeChar, h1, h2, h3, h4, h5, h6, h7, if_true,
                      if_false, List.cons_append, List.nil_append]
                    rw [goStr.eq_def]
                    simp [unescapeChar, ih]
                    exact hc
                  · by_cases h8 : c.toNat < 32
                    · have hdiv : c.toNat / 16 < 16 := by omega
                      have hmod : c.toNat % 16 < 16 := by omega
                      have hcode : c.toNat / 16 * 16 + c.toNat % 16 = c.toNat := by
                        omega
                      simp only [jsonEscapeChar, h1, h2, h3, h4, h5, h6, h7, h8,
                        if_true, if_false, List.cons_append, List.nil_append]
                      rw [goStr.eq_def]
                      simp only [if_neg (by decide : ¬('\\' : Char) = '"'),
                        if_pos rfl]
                      rw [hexVal_hexDigitChar _ hdiv, hexVal_hexDigitChar _ hmod]
                      simp only [show hexVal '0' = some 0 from rfl]
                      simp only [Nat.zero_mul, Nat.zero_add, Nat.mul_zero]
                      rw [hcode, Char.ofNat_toNat, ih]
                      rfl
                    · simp only [jsonEscapeChar, h1, h2, h3, h4, h5, h6, h7, h8,
                        if_false, List.cons_append, List.nil_append]
                      rw [goStr.eq_def]
                      simp [h1, h2, h8, ih]

theorem parseJsonString_jsonStringChars (s : String) (rest : List Char) :
    parseJsonString (jsonStringChars s ++ rest) = some (s, rest) := by
  simp only [jsonStringChars, List.cons_append, parseJsonString, List.append_assoc,
    List.cons_append, List.nil_append]
  rw [goStr_escString]
  rfl

/-- Consume an expected literal character sequence, or fail. -/
def dropLit : List Char → List Char → Option (List Char)
  | [], l => some l
  | _ :: _, [] => none
  | p :: ps, x :: xs => if x = p then dropLit ps xs else none

theorem dropLit_append (pat rest : List Char) :
    dropLit pat (pat ++ rest) = some rest := by
  induction pat with
  | nil => rfl
  | cons p ps ih => simp [dropLit, ih]

/-- The `Zahir` (ZBATProtocol.ts) — the cleartext manifest layer.  `daraja`
is the numeric value of the `DarajaPriority` enum. -/
structure Zahir where
  version : Nat
  senderId : String
  recipientId : String
  daraja : Nat
  timestamp : Nat
  ghilafSize : Nat
  deriving DecidableEq

/-- The `Ghilaf` (ZBATProtocol.ts) — the encrypted envelope layer. -/
structure Ghilaf where
  miftahSequence : Nat
  nonce : List Nat
  batin : List Nat
  mac : List Nat
  deriving DecidableEq

/-- The `Tabaq` (ZBATProtocol.ts) — the complete two-layer packet. -/
structure Tabaq where
  zahir : Zahir
  ghilaf : Ghilaf
  deriving DecidableEq

/-- The literal pieces of `JSON.stringify(tabaq.zahir)`, whose keys
appear in declaration order: version, senderId, recipientId, daraja,
timestamp, ghilafSize. -/
def litVer : List Char := ['\x7b', '"', 'v', 'e', 'r', 's', 'i', 'o', 'n', '"', ':']

/-- Literal piece `,"senderId":`. -/
def litSender : List Char :=
  [',', '"', 's', 'e', 'n', 'd', 'e', 'r', 'I', 'd', '"', ':']

/-- Literal piece `,"recipientId":`. -/
def litRecipient : List Char :=
  [',', '"', 'r', 'e', 'c', 'i', 'p', 'i', 'e', 'n', 't', 'I', 'd', '"', ':']

/-- Literal piece `,"daraja":`. -/
def litDaraja : List Char := [',', '"', 'd', 'a', 'r', 'a', 'j', 'a', '"', ':']

/-- Literal piece `,"timestamp":`. -/
def litTimestamp : List Char :=
  [',', '"', 't', 'i', 'm', 'e', 's', 't', 'a', 'm', 'p', '"', ':']

/-- Literal piece `,"ghilafSize":`. -/
def litGhilafSize : List Char :=
  [',', '"', 'g', 'h', 'i', 'l', 'a', 'f', 'S', 'i', 'z', 'e', '"', ':']

/-- The closing brace of a serialized JSON object. -/
def litClose : List Char := ['\x7d']

/-- The `JSON.stringify(tabaq.zahir)` as emitted by `serializeTabaq`. -/
def jsonZahirChars (z : Zahir) : List Char :=
  litVer ++ natChars z.version ++
  litSender ++ jsonStringChars z.senderId ++
  litRecipient ++ jsonStringChars z.recipientId ++
  litDaraja ++ natChars z.daraja ++
  litTimestamp ++ natChars z.timestamp ++
  litGhilafSize ++ natChars z.ghilafSize ++
  litClose

/-- The `JSON.parse` on the output grammar of `JSON.stringify(zahir)`
(`extractZahir` only ever parses such slices; trailing garbage after
the object makes `JSON.parse` throw, hence fail). -/
def parseZahir (l : List Char) : Option Zahir :=
  (dropLit litVer l).bind fun l1 =>
  (parseNat l1).bind fun pv =>
  (dropLit litSender pv.2).bind fun l2 =>
  (parseJsonString l2).bind fun ps =>
  (dropLit litRecipient ps.2).bind fun l3 =>
  (parseJsonString l3).bind fun pr =>
  (dropLit litDaraja pr.2).bind fun l4 =>
  (parseNat l4).bind fun pd =>
  (dropLit litTimestamp pd.2).bind fun l5 =>
  (parseNat l5).bind fun pt =>
  (dropLit litGhilafSize pt.2).bind fun l6 =>
  (parseNat l6).bind fun pg =>
  (dropLit litClose pg.2).bind fun l7 =>
  if l7 = [] then
    some { version := pv.1
           senderId := ps.1
           recipientId := pr.1
           daraja := pd.1
           timestamp := pt.1
           ghilafSize := pg.1 }
  else none

theorem dropLit_self (pat : List Char) : dropLit pat pat = some [] := by
  have h := dropLit_append pat []
  rwa [List.append_nil] at h

theorem parseNat_before_litSender (n : Nat) (l : List Char) :
    parseNat (natChars n ++ (litSender ++ l)) = some (n, litSender ++ l) :=
  parseNat_natChars n _ rfl

theorem parseNat_before_litTimestamp (n : Nat) (l : List Char) :
    parseNat (natChars n ++ (litTimestamp ++ l)) = some (n, litTimestamp ++ l) :=
  parseNat_natChars n _ rfl

theorem parseNat_before_litGhilafSize (n : Nat) (l : List Char) :
    parseNat (natChars n ++ (litGhilafSize ++ l)) = some (n, litGhilafSize ++ l) :=
  parseNat_natChars n _ rfl

theorem parseNat_before_litClose (n : Nat) :
    parseNat (natChars n ++ litClose) = some (n, litClose) :=
  parseNat_natChars n _ rfl

theorem parseZahir_jsonZahirChars (z : Zahir) :
    parseZahir (jsonZahirChars z) = some z := by
  unfold parseZahir jsonZahirChars
  simp only [List.append_assoc, List.append_nil, dropLit_append, dropLit_self,
    Option.some_bind, parseJsonString_jsonStringChars, parseNat_before_litSender,
    parseNat_before_litTimestamp, parseNat_before_litGhilafSize,
    parseNat_before_litClose, if_pos]

/-- One character of the standard base64 alphabet. -/
def base64Digit (n : Nat) : Char :=
  "ABCDEFGHIJKLMNOPQRSTUVWXYZabcdefghijklmnopqrstuvwxyz0123456789+/".data.getD n 'A'

/-- The `Buffer.toString('base64')` on a byte string. -/
def base64Chars : List Nat → List Char
  | [] => []
  | [a] => [base64Digit (a / 4), base64Digit (a % 4 * 16), '=', '=']
  | [a, b] =>
      [base64Digit (a / 4), base64Digit (a % 4 * 16 + b / 16),
       base64Digit (b % 16 * 4), '=']
  | a :: b :: c :: rest =>
      [base64Digit (a / 4), base64Digit (a % 4 * 16 + b / 16),
       base64Digit (b % 16 * 4 + c / 64), base64Digit (c % 64)] ++ base64Chars rest

/-- A base64 payload quoted as a JSON string (the base64 alphabet needs
no escaping). -/
def quoted (l : List Char) : List Char := '"' :: (l ++ ['"'])

/-- Literal piece `{"miftahSequence":`. -/
def litMiftahSeq : List Char :=
  ['\x7b', '"', 'm', 'i', 'f', 't', 'a', 'h', 'S', 'e', 'q', 'u', 'e', 'n', 'c', 'e',
   '"', ':']

/-- Literal piece `,"nonce":`. -/
def litNonce : List Char := [',', '"', 'n', 'o', 'n', 'c', 'e', '"', ':']

/-- Literal piece `,"batin":`. -/
def litBatin : List Char := [',', '"', 'b', 'a', 't', 'i', 'n', '"', ':']

/-- Literal piece `,"mac":`. -/
def litMac : List Char := [',', '"', 'm', 'a', 'c', '"', ':']

/-- The `JSON.stringify` of the ghilaf object built in `serializeTabaq`
(nonce/batin/mac as base64 strings). -/
def jsonGhilafChars (g : Ghilaf) : List Char :=
  litMiftahSeq ++ natChars g.miftahSequence ++
  litNonce ++ quoted (base64Chars g.nonce) ++
  litBatin ++ quoted (base64Chars g.batin) ++
  litMac ++ quoted (base64Chars g.mac) ++
  litClose

/-- The `serializeTabaq` (ZBATProtocol.ts lines 191-210):
`[zahirLen:4][zahir JSON][ghilaf JSON]`, the 4-byte length prefix
big-endian and unencrypted. -/
def serializeTabaq (t : Tabaq) : List Nat :=
  let zahirBytes := (jsonZahirChars t.zahir).map Char.toNat
  let ghilafBytes := (jsonGhilafChars t.ghilaf).map Char.toNat
  be32enc zahirBytes.length ++ zahirBytes ++ ghilafBytes

/-- The `extractZahir` (ZBATProtocol.ts lines 241-249): read the 4-byte
length, decode and `JSON.parse` only the bytes
`data.slice(4, 4 + zahirLen)`; any parse failure yields `null`.  No key
material is consulted and the region past `4 + zahirLen` is never read. -/
def extractZahir (data : List Nat) : Option Zahir :=
  parseZahir (((data.drop 4).take (getUint32 data 0)).map Char.ofNat)

theorem extractZahir_of_tail (z : Zahir) (tail : List Nat)
    (hlen : (jsonZahirChars z).length < 2 ^ 32) :
    extractZahir (be32enc ((jsonZahirChars z).map Char.toNat).length ++
      ((jsonZahirChars z).map Char.toNat ++ tail)) = some z := by
  unfold extractZahir
  have hlen2 : ((jsonZahirChars z).map Char.toNat).length < 2 ^ 32 := by
    rw [List.length_map]; exact hlen
  rw [getUint32_be32enc_append _ _ hlen2]
  have h4 : (be32enc ((jsonZahirChars z).map Char.toNat).length).length = 4 := rfl
  rw [← h4, List.drop_left, List.take_left, List.map_map]
  have hid : Char.ofNat ∘ Char.toNat = id := funext Char.ofNat_toNat
  rw [hid, List.map_id]
  exact parseZahir_jsonZahirChars z

/-- C8 -- `extractZahir` applied to the serialized bytes of any sealed
`Tabaq` succeeds and returns the manifest (sender, recipient, priority
and the other zahir fields) exactly as sealed.  It reads nothing beyond
the length-prefixed zahir slice — replacing the entire encrypted region
by arbitrary bytes gives the same result — and consults no session key,
so it is safe for routers holding no key for the peer.  (The 4-byte
length prefix requires the zahir JSON to be shorter than `2^32`, which
every real envelope is.) -/
theorem extractZahir_serializeTabaq (t : Tabaq)
    (hlen : (jsonZahirChars t.zahir).length < 2 ^ 32) :
    extractZahir (serializeTabaq t) = some t.zahir ∧
    ∀ tail : List Nat,
      extractZahir (be32enc ((jsonZahirChars t.zahir).map Char.toNat).length ++
        ((jsonZahirChars t.zahir).map Char.toNat ++ tail)) = some t.zahir := by
  constructor
  · show extractZahir
      (be32enc ((jsonZahirChars t.zahir).map Char.toNat).length ++
        (jsonZahirChars t.zahir).map Char.toNat ++
        (jsonGhilafChars t.ghilaf).map Char.toNat) = some t.zahir
    rw [List.append_assoc]
    exact extractZahir_of_tail t.zahir _ hlen
  · exact fun tail => extractZahir_of_tail t.zahir tail hlen

/-- Witness for C8 at a concrete sealed envelope. -/
theorem extractZahir_serializeTabaq_witness :
    extractZahir (serializeTabaq
      ⟨⟨1, "alice", "bob", 2, 123456, 3⟩, ⟨0, [0, 1], [2, 3, 4], [5]⟩⟩) =
      some ⟨1, "alice", "bob", 2, 123456, 3⟩ :=
  (extractZahir_serializeTabaq
    ⟨⟨1, "alice", "bob", 2, 123456, 3⟩, ⟨0, [0, 1], [2, 3, 4], [5]⟩⟩
    (by decide)).1

end Wyresup
